import Mathlib

/-!
# Verification of the Math Solver AI proxy server (`src/server.js`)

A shallow embedding, in Lean 4, of the logic of the small Node.js HTTP
proxy in `src/server.js`: message reshaping for the chat endpoint,
payload validation, translation of upstream responses, the model-list
filter with its hardcoded fallback, path-traversal protection in the
static file server, the size-guarded request-body reader, and the
`.env` loader.  JavaScript values are modelled by the inductive `JVal`;
JavaScript strings by Lean `String`; the standard coercions (truthiness,
`String(...)`, `||`) are modelled explicitly.
-/

/-- A JavaScript (JSON-like) runtime value.  `undefined` is identified
with `null`: the two are interchangeable in every operation this server
performs on them (truthiness, `Array.isArray`, optional chaining;
`typeof` differs but never observably here, see `jsTypeofIsObject`).
Numbers are modelled as exact rationals. -/
inductive JVal where
  | null : JVal
  | bool (b : Bool) : JVal
  | num (q : ℚ) : JVal
  | str (s : String) : JVal
  | arr (elems : List JVal) : JVal
  | obj (fields : List (String × JVal)) : JVal

namespace JVal

mutual
/-- Structural equality test on `JVal` (deriving is unavailable for this
nested inductive). -/
def beq : JVal → JVal → Bool
  | .null, .null => true
  | .bool a, .bool b => a == b
  | .num a, .num b => a == b
  | .str a, .str b => a == b
  | .arr a, .arr b => beqList a b
  | .obj a, .obj b => beqFields a b
  | _, _ => false

def beqList : List JVal → List JVal → Bool
  | [], [] => true
  | x :: xs, y :: ys => beq x y && beqList xs ys
  | _, _ => false

def beqFields : List (String × JVal) → List (String × JVal) → Bool
  | [], [] => true
  | (k, v) :: xs, (k', v') :: ys => k == k' && beq v v' && beqFields xs ys
  | _, _ => false
end

mutual
theorem beq_iff : ∀ a b : JVal, beq a b = true ↔ a = b
  | .null, .null => by simp [beq]
  | .bool a, .bool b => by simp [beq]
  | .num a, .num b => by simp [beq]
  | .str a, .str b => by simp [beq]
  | .arr a, .arr b => by simp [beq, beqList_iff a b]
  | .obj a, .obj b => by simp [beq, beqFields_iff a b]
  | .null, .bool _ | .null, .num _ | .null, .str _ | .null, .arr _ | .null, .obj _
  | .bool _, .null | .bool _, .num _ | .bool _, .str _ | .bool _, .arr _ | .bool _, .obj _
  | .num _, .null | .num _, .bool _ | .num _, .str _ | .num _, .arr _ | .num _, .obj _
  | .str _, .null | .str _, .bool _ | .str _, .num _ | .str _, .arr _ | .str _, .obj _
  | .arr _, .null | .arr _, .bool _ | .arr _, .num _ | .arr _, .str _ | .arr _, .obj _
  | .obj _, .null | .obj _, .bool _ | .obj _, .num _ | .obj _, .str _ | .obj _, .arr _ => by
    simp [beq]

theorem beqList_iff : ∀ a b : List JVal, beqList a b = true ↔ a = b
  | [], [] => by simp [beqList]
  | x :: xs, y :: ys => by
    simp [beqList, beq_iff x y, beqList_iff xs ys]
  | [], _ :: _ => by simp [beqList]
  | _ :: _, [] => by simp [beqList]

theorem beqFields_iff : ∀ a b : List (String × JVal), beqFields a b = true ↔ a = b
  | [], [] => by simp [beqFields]
  | (k, v) :: xs, (k', v') :: ys => by
    simp [beqFields, beq_iff v v', beqFields_iff xs ys, and_assoc]
  | [], _ :: _ => by simp [beqFields]
  | _ :: _, [] => by simp [beqFields]
end

instance : DecidableEq JVal := fun a b =>
  decidable_of_iff (beq a b = true) (beq_iff a b)

/-- JavaScript truthiness of a value. -/
def truthy : JVal → Bool
  | .null => false
  | .bool b => b
  | .num q => q ≠ 0
  | .str s => s ≠ ""
  | .arr _ => true
  | .obj _ => true

/-- JavaScript `a || b`. -/
def orElse (a b : JVal) : JVal := if a.truthy then a else b

/-- Optional-chained field access `v?.k`: the field's value on an object
carrying the key, `null` (= `undefined`) otherwise. -/
def field : JVal → String → JVal
  | .obj fields, k =>
    match fields.lookup k with
    | some v => v
    | none => .null
  | _, _ => .null

/-- `Array.isArray(v)`. -/
def isArray : JVal → Bool
  | .arr _ => true
  | _ => false

/-- `typeof v === 'object'` (true for objects, arrays and `null`). -/
def typeofIsObject : JVal → Bool
  | .null => true
  | .arr _ => true
  | .obj _ => true
  | _ => false

/-- `typeof v === 'string'`. -/
def typeofIsString : JVal → Bool
  | .str _ => true
  | _ => false

/-- `v?.[0]`: element 0 of an array, property "0" of an object, the
first character of a non-empty string, otherwise `null`. -/
def idx0 : JVal → JVal
  | .arr (x :: _) => x
  | .arr [] => .null
  | .obj fields => (JVal.obj fields).field "0"
  | .str s => if s = "" then .null else .str (String.mk [s.toList.head!])
  | _ => .null

mutual
/-- JavaScript `String(v)` coercion.  Arrays stringify as their elements
joined by "," (with `null` rendering as the empty string inside an
array, as in `Array.prototype.join`); objects as "[object Object]".
Non-integer numbers are rendered as rationals, an approximation of
JavaScript's decimal rendering (no claim depends on it). -/
def toJsString : JVal → String
  | .null => "null"
  | .bool b => if b then "true" else "false"
  | .num q => if q.den = 1 then toString q.num else toString q
  | .str s => s
  | .arr elems => String.intercalate "," (joinParts elems)
  | .obj _ => "[object Object]"

/-- The per-element strings of `Array.prototype.join`: `null` (and
`undefined`) render as the empty string. -/
def joinParts : List JVal → List String
  | [] => []
  | .null :: rest => "" :: joinParts rest
  | v :: rest => toJsString v :: joinParts rest
end

/-- A character escaped for a JSON string literal, as in
`JSON.stringify`. -/
def escChar (c : Char) : String :=
  if c = '"' then "\\\""
  else if c = '\\' then "\\\\"
  else if c = '\n' then "\\n"
  else if c = '\t' then "\\t"
  else if c = '\r' then "\\r"
  else String.mk [c]

mutual
/-- `JSON.stringify(v)` (used only to build diagnostic previews). -/
def stringify : JVal → String
  | .null => "null"
  | .bool b => if b then "true" else "false"
  | .num q => if q.den = 1 then toString q.num else toString q
  | .str s => "\"" ++ String.join (s.toList.map escChar) ++ "\""
  | .arr elems => "[" ++ String.intercalate "," (stringifyList elems) ++ "]"
  | .obj fields => "\x7b" ++ String.intercalate "," (stringifyFields fields) ++ "\x7d"

def stringifyList : List JVal → List String
  | [] => []
  | v :: rest => stringify v :: stringifyList rest

def stringifyFields : List (String × JVal) → List String
  | [] => []
  | (k, v) :: rest =>
    ("\"" ++ String.join (k.toList.map escChar) ++ "\":" ++ stringify v) :: stringifyFields rest
end

end JVal

/-- The uniform error payload `{ error: { message } }` produced by
`jsonError` in `server.js`. -/
def errPayload (message : String) : JVal :=
  .obj [("error", .obj [("message", .str message)])]

/-- An HTTP JSON response as written by `sendJson`: a status code and a
JSON payload. -/
structure HttpJson where
  status : Nat
  payload : JVal
deriving DecidableEq

/-- `jsonError(reqId, res, status, message)`: status plus
`{error: {message}}`. -/
def jsonErrorRes (status : Nat) (message : String) : HttpJson :=
  ⟨status, errPayload message⟩

/-! ## Chat message reshaping (`doGroqChat`, `server.js:172-198`) -/

/-- One image block pushed by the reshaping loop in `doGroqChat`:
`{ type: 'image_url', image_url: { url: 'data:<mime>;base64,<data>' } }`,
or `none` when the attachment's data coerces to the empty string
(`if (!data) continue`). -/
def imageBlockOf (img : JVal) : Option JVal :=
  let data : String :=
    if img.typeofIsString then img.toJsString
    else (JVal.orElse (img.field "data") (.str "")).toJsString
  let mime : String :=
    if img.typeofIsObject && (img.field "mime").truthy then (img.field "mime").toJsString
    else "image/png"
  if data = "" then none
  else some (.obj [("type", .str "image_url"),
    ("image_url", .obj [("url", .str ("data:" ++ mime ++ ";base64," ++ data))])])

/-- The reshaping applied to each element of `messages` in `doGroqChat`
(`server.js:172-198`): messages with a non-empty `images` array become
multimodal content block lists, others pass through as
`{role, content}`. -/
def reshapeMessage (m : JVal) : JVal :=
  match m.field "images" with
  | .arr (img0 :: imgs) =>
    let contentField := m.field "content"
    let textPart : List JVal :=
      if contentField.truthy then
        [.obj [("type", .str "text"), ("text", .str contentField.toJsString)]]
      else []
    let content := textPart ++ (img0 :: imgs).filterMap imageBlockOf
    if content = [] then
      .obj [("role", m.field "role"), ("content", JVal.orElse contentField (.str ""))]
    else
      .obj [("role", m.field "role"), ("content", .arr content)]
  | _ => .obj [("role", m.field "role"), ("content", m.field "content")]

/-- The upstream chat-completions request body built by `doGroqChat`
(`server.js:200-206`). -/
def chatCompletionsBody (model : JVal) (messages : List JVal) : JVal :=
  .obj [("model", model),
        ("messages", .arr (messages.map reshapeMessage)),
        ("temperature", .num (0.4 : ℚ)),
        ("max_tokens", .num 1500),
        ("stream", .bool false)]

/-! ## Chat payload validation (`proxyGroqChat`, `server.js:239-249`) -/

/-- What the chat handler does right after reading the request body:
either it responds immediately (no outbound network call is made), or it
proceeds into `doGroqChat`, which issues the upstream chat-completions
request with the given body. -/
inductive ChatStep where
  | respond (status : Nat) (payload : JVal) : ChatStep
  | upstream (reqBody : JVal) : ChatStep
deriving DecidableEq

/-- `proxyGroqChat` (`server.js:239-249`).  The argument is the result
of `JSON.parse` on the raw request body, `none` when the body is not
valid JSON (`JSON.parse` threw). -/
def proxyGroqChat (parsed : Option JVal) : ChatStep :=
  match parsed with
  | none => .respond 400 (errPayload "Invalid JSON body")
  | some p =>
    if !(p.field "model").truthy || !(p.field "messages").isArray then
      .respond 400 (errPayload "Invalid payload. Expected \x7b model, messages[] \x7d")
    else
      .upstream (chatCompletionsBody (p.field "model")
        (match p.field "messages" with | .arr xs => xs | _ => []))

/-! ## Upstream chat response translation (`doGroqChat`, `server.js:210-229`) -/

/-- An upstream chat-completions HTTP response as observed by the
callback in `doGroqChat`: the status code, the raw body text, and the
result of `JSON.parse` on that text (`none` when it is not valid
JSON). -/
structure UpstreamResp where
  status : Nat
  raw : String
  parsed : Option JVal

/-- The response-translation callback of `doGroqChat`
(`server.js:211-229`): non-JSON body → 502 with a 180-character preview;
upstream status ≥ 400 → same status with the upstream error message;
missing `choices[0].message.content` → 502 with a 280-character
stringified preview; otherwise 200 `{text}`. -/
def handleGroqChatResponse (r : UpstreamResp) : HttpJson :=
  match r.parsed with
  | none => jsonErrorRes 502 ("Bad JSON from Groq: " ++ (r.raw.take 180))
  | some json =>
    if r.status ≥ 400 then
      let message := JVal.orElse ((json.field "error").field "message")
        (JVal.orElse (json.field "message") (.str "Groq returned an error"))
      jsonErrorRes r.status ("Groq error: " ++ message.toJsString)
    else
      let text := (((json.field "choices").idx0).field "message").field "content"
      if !text.truthy then
        jsonErrorRes 502
          ("Groq returned empty content. Response preview: " ++ (json.stringify.take 280))
      else
        ⟨200, .obj [("text", text)]⟩

/-! ## Model discovery (`listModels`, `server.js:129-167`) -/

/-- `GROQ_MODELS_FALLBACK` (`server.js:26-35`). -/
def GROQ_MODELS_FALLBACK : List JVal :=
  [.obj [("name", .str "meta-llama/llama-4-maverick-17b-128e-instruct")],
   .obj [("name", .str "meta-llama/llama-4-scout-17b-16e-instruct")],
   .obj [("name", .str "llama-3.3-70b-versatile")],
   .obj [("name", .str "llama-3.1-8b-instant")],
   .obj [("name", .str "llama3-70b-8192")],
   .obj [("name", .str "llama3-8b-8192")],
   .obj [("name", .str "gemma2-9b-it")],
   .obj [("name", .str "mixtral-8x7b-32768")]]

/-- Whether a model identifier matches the blocklist regex
`/whisper|tts|embed|guard/` of `server.js:152`: a case-sensitive literal
substring test for any of the four fragments. -/
def blockedId (id : String) : Bool :=
  (id.toList.tails.any fun t => "whisper".toList.isPrefixOf t) ||
  (id.toList.tails.any fun t => "tts".toList.isPrefixOf t) ||
  (id.toList.tails.any fun t => "embed".toList.isPrefixOf t) ||
  (id.toList.tails.any fun t => "guard".toList.isPrefixOf t)

/-- The filter-then-map over the upstream model entries
(`server.js:147-155`): keep entries whose `id` coerces (via
`typeof m?.id === 'string' ? m.id : ''`) to a truthy string not matching
the blocklist; map survivors to `{ name: m.id }`. -/
def chatModelsOf (rawModels : List JVal) : List JVal :=
  (rawModels.filter fun m =>
    let id := match m.field "id" with | .str s => s | _ => ""
    if id = "" then false
    else !(blockedId id)).map fun m => .obj [("name", m.field "id")]

/-- The outcome of the upstream `GET /openai/v1/models` call as observed
by `listModels`: either the error callback fired (transport failure,
including the missing-API-key short circuit), or the response callback
fired with a status code and raw body; `parsed` is the result of
`JSON.parse` on the raw body (`none` when it is not valid JSON). -/
inductive UpstreamOutcome where
  | transportError (message : String) : UpstreamOutcome
  | response (status : Nat) (raw : String) (parsed : Option JVal) : UpstreamOutcome

/-- The HTTP 200 fallback response `{models: GROQ_MODELS_FALLBACK}`. -/
def fallbackModelsRes : HttpJson :=
  ⟨200, .obj [("models", .arr GROQ_MODELS_FALLBACK)]⟩

/-- `Array.isArray(parsed?.data) ? parsed.data : []` (`server.js:144`). -/
def rawModelListOf (j : JVal) : List JVal :=
  match j.field "data" with
  | .arr xs => xs
  | _ => []

/-- `listModels` (`server.js:129-167`) as a function of the upstream
outcome. -/
def listModelsResponse : UpstreamOutcome → HttpJson
  | .transportError _ => fallbackModelsRes
  | .response status _raw parsed =>
    if status ≥ 400 then fallbackModelsRes
    else
      match parsed with
      | none => fallbackModelsRes
      | some j =>
        let chatModels := chatModelsOf (rawModelListOf j)
        ⟨200, .obj [("models", .arr (if chatModels = [] then GROQ_MODELS_FALLBACK else chatModels))]⟩

/-! ## Size-guarded body reading (`readBody`, `server.js:69-89`) -/

/-- `MAX_CHAT_BYTES` (`server.js:24`). -/
def MAX_CHAT_BYTES : Nat := 20000000

/-- The UTF-8 byte length of one character, as counted by a Node
`Buffer` holding the chunk (`chunk.length`). -/
def utf8Len (c : Char) : Nat :=
  if c.toNat < 0x80 then 1
  else if c.toNat < 0x800 then 2
  else if c.toNat < 0x10000 then 3
  else 4

/-- Byte length of a chunk (`chunk.length` on a `Buffer`). -/
def chunkBytes (s : String) : Nat :=
  (s.toList.map utf8Len).sum

/-- The closure state of one `readBody` invocation: the accumulated
`body` string, the `done` flag, and the running `bytes` count. -/
structure RBState where
  body : String
  done : Bool
  bytes : Nat
deriving DecidableEq

/-- An observable effect of `readBody`: an HTTP response written via
`jsonError`, the `req.destroy()` call, or the `onDone(body)` success
callback. -/
inductive RBOut where
  | response (status : Nat) (payload : JVal) : RBOut
  | destroyConn : RBOut
  | deliver (body : String) : RBOut
deriving DecidableEq

/-- The 413 message `Request body too large (limit ${limit} bytes)`. -/
def tooLargeMsg (limit : Nat) : String :=
  "Request body too large (limit " ++ toString limit ++ " bytes)"

/-- The `data` event handler of `readBody` (`server.js:74-85`): add the
chunk's byte length; over the limit, emit one 413 and destroy the
connection unless already `done` (and never append); within the limit,
append the chunk to `body`. -/
def rbData (limit : Nat) (s : RBState) (chunk : String) : RBState × List RBOut :=
  let bytes' := s.bytes + chunkBytes chunk
  if bytes' > limit then
    if s.done then ({ s with bytes := bytes' }, [])
    else ({ s with bytes := bytes', done := true },
      [.response 413 (errPayload (tooLargeMsg limit)), .destroyConn])
  else ({ body := s.body ++ chunk, done := s.done, bytes := bytes' }, [])

/-- The `end` event handler of `readBody` (`server.js:87`): call
`onDone(body)` unless `done` is set. -/
def rbEnd (s : RBState) : List RBOut :=
  if s.done then [] else [.deliver s.body]

/-- Deliver a sequence of `data` events to the `readBody` handlers,
starting from a given closure state and already-emitted effects. -/
def rbFold (limit : Nat) (init : RBState × List RBOut) (chunks : List String) :
    RBState × List RBOut :=
  chunks.foldl
    (fun acc c =>
      let next := rbData limit acc.1 c
      (next.1, acc.2 ++ next.2))
    init

/-- One whole body-reading interaction of `readBody`: a sequence of
`data` events carrying the chunks, followed by the `end` event.  Returns
the final closure state and all emitted effects in order. -/
def readBodyRun (limit : Nat) (chunks : List String) : RBState × List RBOut :=
  let p := rbFold limit (⟨"", false, 0⟩, []) chunks
  (p.1, p.2 ++ rbEnd p.1)

/-- Whether an effect is an HTTP response write. -/
def isResponseOut : RBOut → Bool
  | .response _ _ => true
  | _ => false

/-! ## `.env` loader (`server.js:8-14`)

JavaScript strings are modelled here as `List Char`, so that
`split`/`trim`/`join` are structurally recursive (Lean's own
`String.splitOn` is defined by well-founded recursion and does not
evaluate inside the kernel). -/

/-- Split a character list on a separator character, as
`String.prototype.split` with a one-character separator. -/
def splitOnChar (sep : Char) : List Char → List (List Char)
  | [] => [[]]
  | c :: cs =>
    if c = sep then [] :: splitOnChar sep cs
    else
      match splitOnChar sep cs with
      | s :: ss => (c :: s) :: ss
      | [] => [[c]]

/-- Whitespace as recognised by `String.prototype.trim` (the cases that
occur in key-value files). -/
def isJsSpace (c : Char) : Bool :=
  c = ' ' ∨ c = '\t' ∨ c = '\n' ∨ c = '\r'

/-- `String.prototype.trim`. -/
def trimChars (l : List Char) : List Char :=
  ((l.dropWhile isJsSpace).reverse.dropWhile isJsSpace).reverse

/-- A process environment, as an association list (`process.env`). -/
def EnvMap := List (List Char × List Char)

/-- `process.env[k]` lookup. -/
def envGet (env : EnvMap) (k : List Char) : Option (List Char) :=
  (env : List (List Char × List Char)).lookup k

/-- `process.env[k] = v`: replace the binding for `k` (or add one). -/
def envSet (env : EnvMap) (k v : List Char) : EnvMap :=
  match (env : List (List Char × List Char)) with
  | [] => [(k, v)]
  | (k', v') :: rest =>
    if k' = k then (k, v) :: rest else (k', v') :: envSet rest k v

/-- One line of the `.env` file (`server.js:11-12`):
`const [key, ...val] = line.trim().split('=')`, accepted when `key` is
truthy and `val` is non-empty; yields
`(key.trim(), val.join('=').trim())`. -/
def parseEnvLine (line : List Char) : Option (List Char × List Char) :=
  match splitOnChar '=' (trimChars line) with
  | [] => none
  | key :: val =>
    if key ≠ [] ∧ val ≠ [] then
      some (trimChars key, trimChars (List.intercalate ['='] val))
    else none

/-- The `.env` loader (`server.js:10-13`): split the file contents on
newlines and assign each well-formed `KEY=VALUE` line into the process
environment, unconditionally. -/
def loadEnvFile (contents : List Char) (env : EnvMap) : EnvMap :=
  (splitOnChar '\n' contents).foldl
    (fun e line =>
      match parseEnvLine line with
      | some (k, v) => envSet e k v
      | none => e)
    env

/-! ## Static file server (`serveStatic`, `server.js:253-267`)

POSIX path resolution (`path.resolve`) is modelled on character lists:
split on `/`, normalise the segments (dropping empty and `.` segments,
popping one segment per `..`, saturating at the root), and rejoin with a
leading `/` and no trailing `/`.  This matches Node's
`path.resolve(base, rel)` for an absolute `base`. -/

/-- Split a character list on `'/'`. -/
def splitSlash (l : List Char) : List (List Char) :=
  splitOnChar '/' l

/-- One step of POSIX normalisation: skip empty and `.` segments, pop on
`..` (a no-op at the root), append anything else. -/
def normStep (acc : List (List Char)) (seg : List Char) : List (List Char) :=
  if seg = [] ∨ seg = ['.'] then acc
  else if seg = ['.', '.'] then acc.dropLast
  else acc ++ [seg]

/-- Normalise a split absolute path. -/
def normSegs (segs : List (List Char)) : List (List Char) :=
  segs.foldl normStep []

/-- Join normalised segments into an absolute path string (as characters):
`/` for the root, `/a/b` otherwise (no trailing slash), as produced by
`path.resolve`. -/
def joinAbs (segs : List (List Char)) : List Char :=
  if segs = [] then ['/'] else segs.flatMap (fun s => '/' :: s)

/-- `path.resolve(base, rel)` for the uses in `serveStatic`: when `rel`
is not absolute, normalise `base + '/' + rel`; otherwise normalise `rel`
alone.  (`base` is `STATIC_ROOT = __dirname`, an absolute path.) -/
def resolveChars (base rel : List Char) : List Char :=
  if rel.head? = some '/' then joinAbs (normSegs (splitSlash rel))
  else joinAbs (normSegs (splitSlash (base ++ '/' :: rel)))

/-- `path.resolve(p)` for an absolute `p`: pure normalisation. -/
def resolve1 (p : List Char) : List Char :=
  joinAbs (normSegs (splitSlash p))

/-- What `serveStatic` decides before touching the filesystem: reject
with HTTP 403 (`jsonError(.., 403, 'Forbidden')`), or proceed to
`fs.readFile` on the resolved path (which then yields 404 or 200). -/
inductive StaticDecision where
  | forbidden : StaticDecision
  | read (resolvedPath : List Char) : StaticDecision
deriving DecidableEq

/-- `serveStatic` (`server.js:253-260`): map `/` to the entry file,
resolve `'.' + file` against the static root, and reject unless the
resolved path starts with `path.resolve(STATIC_ROOT) + '/'`
(JavaScript's `String.prototype.startsWith` is string-prefix). -/
def serveStaticDecision (staticRoot : List Char) (reqPath : String) : StaticDecision :=
  let file := if reqPath = "/" then "/math-solver.html" else reqPath
  let root := resolve1 staticRoot ++ ['/']
  let resolved := resolveChars staticRoot ('.' :: file.toList)
  if root.isPrefixOf resolved then .read resolved else .forbidden

/-! ## Specification-side notions

The definitions below restate parts of the specification in its own
words, to be compared against the embedded code.  They are used only in
theorem statements. -/

/-- An image attachment in the shape the specification's data model
gives it: a bare base64 string, or a structured
`\x7bdata, mime?\x7d` object. -/
inductive SpecImg where
  | legacy (d : String) : SpecImg
  | structured (d : String) (mime : Option String) : SpecImg
deriving DecidableEq

namespace SpecImg

/-- The JavaScript value such an attachment arrives as. -/
def toJVal : SpecImg → JVal
  | .legacy s => .str s
  | .structured d none => .obj [("data", .str d)]
  | .structured d (some mm) => .obj [("data", .str d), ("mime", .str mm)]

/-- The attachment's data. -/
def dataOf : SpecImg → String
  | .legacy s => s
  | .structured d _ => d

/-- Well-formed per the spec's data model: a specified mime is an actual
(non-empty) mime string; an empty mime counts as unspecified. -/
def wf : SpecImg → Prop
  | .structured _ (some mm) => mm ≠ ""
  | _ => True

/-- The image block the specification promises for one attachment:
one block per attachment with non-empty data, with URL
`data:<mime>;base64,<data>`, mime defaulting to `image/png` when
unspecified; attachments with empty data are skipped. -/
def block : SpecImg → Option JVal
  | .legacy s =>
    if s = "" then none
    else some (.obj [("type", .str "image_url"),
      ("image_url", .obj [("url", .str ("data:image/png;base64," ++ s))])])
  | .structured d mo =>
    if d = "" then none
    else some (.obj [("type", .str "image_url"),
      ("image_url", .obj [("url",
        .str ("data:" ++ mo.getD "image/png" ++ ";base64," ++ d))])])

end SpecImg

/-- The text block the specification promises when the message's text
content is non-empty. -/
def textBlock (c : String) : JVal :=
  .obj [("type", .str "text"), ("text", .str c)]

/-- A chat message as the spec's data model describes it: a role, a
string content, and a list of image attachments. -/
def mkSpecMessage (role : JVal) (content : String) (imgs : List SpecImg) : JVal :=
  .obj [("role", role), ("content", .str content),
        ("images", .arr (imgs.map SpecImg.toJVal))]

/-- The upstream error message the (amended) specification promises on
upstream status ≥ 400: the error object's `message` field when truthy,
else the top-level `message` field when truthy, else the generic
text. -/
def upstreamErrText (j : JVal) : String :=
  if ((j.field "error").field "message").truthy then
    ((j.field "error").field "message").toJsString
  else if (j.field "message").truthy then (j.field "message").toJsString
  else "Groq returned an error"

/-- The model filter exactly as the claim words it: entries whose
identifier is not a string are removed, entries whose (string)
identifier contains a blocklist fragment are removed, every other entry
survives, mapped to `\x7bname: identifier\x7d`. -/
def specClaimChatModels (rawModels : List JVal) : List JVal :=
  rawModels.filterMap fun m =>
    match m.field "id" with
    | .str s => if blockedId s then none else some (.obj [("name", .str s)])
    | _ => none

/-- The amended model filter: additionally removes entries whose
identifier is the empty string (the code's `if (!id) return false`). -/
def specAmendedChatModels (rawModels : List JVal) : List JVal :=
  rawModels.filterMap fun m =>
    match m.field "id" with
    | .str s => if s = "" ∨ blockedId s then none else some (.obj [("name", .str s)])
    | _ => none

/-- Segments whose every entry is a plain path component: non-empty, no
separator, and not one of the special components `.` and `..`.  The
canonical form of the static root directory. -/
def canonicalSegs (l : List (List Char)) : Prop :=
  ∀ s ∈ l, s ≠ [] ∧ '/' ∉ s ∧ s ≠ ['.'] ∧ s ≠ ['.', '.']

/-- `segs` names a file strictly inside the directory named by `root`
(both as canonical segment lists): `root` is a proper prefix of
`segs`. -/
def isStrictUnder (root segs : List (List Char)) : Prop :=
  root <+: segs ∧ root ≠ segs

/-- The canonical resolution of a requested path against the static
root, in segment form: what `path.resolve(STATIC_ROOT, '.' + file)`
produces, with `/` first mapped to the entry file. -/
def staticResolvedSegs (rs : List (List Char)) (reqPath : String) : List (List Char) :=
  normSegs (splitSlash (joinAbs rs ++ '/' :: '.' ::
    (if reqPath = "/" then "/math-solver.html" else reqPath).toList))

/-! ## Theorems -/

/-- C2: for every `POST /api/chat` request whose body is not valid JSON,
or whose parsed body is missing `model`, or whose `messages` field is
not a sequence, the handler returns HTTP 400 with an
`\x7berror: \x7bmessage\x7d\x7d` payload and performs no outbound
network call (the decision is `.respond`, never `.upstream`). -/
theorem chat_validation_rejects_without_upstream (p : JVal) :
    (proxyGroqChat none = .respond 400 (errPayload "Invalid JSON body")) ∧
    (p.field "model" = .null →
      proxyGroqChat (some p) =
        .respond 400 (errPayload "Invalid payload. Expected \x7b model, messages[] \x7d")) ∧
    ((p.field "messages").isArray = false →
      proxyGroqChat (some p) =
        .respond 400 (errPayload "Invalid payload. Expected \x7b model, messages[] \x7d")) := by
  refine ⟨rfl, fun h => ?_, fun h => ?_⟩
  · simp [proxyGroqChat, h, JVal.truthy]
  · simp [proxyGroqChat, h]

/-- Witness for C2: a parsed body with no `model` field is rejected with
HTTP 400. -/
theorem chat_validation_rejects_without_upstream_witness :
    proxyGroqChat (some (.obj [("messages", .arr [])])) =
      .respond 400 (errPayload "Invalid payload. Expected \x7b model, messages[] \x7d") :=
  (chat_validation_rejects_without_upstream (.obj [("messages", .arr [])])).2.1 rfl

/-- C10: chat payload validation only requires `model` to be truthy and
`messages` to be an array; any truthy non-string `model` passes
validation and the request is forwarded to the upstream chat-completions
call, while a present but falsy `model` is rejected with HTTP 400. -/
theorem chat_validation_model_truthiness (mv : JVal) (msgs : List JVal) :
    (mv.truthy = true →
      proxyGroqChat (some (.obj [("model", mv), ("messages", .arr msgs)])) =
        .upstream (chatCompletionsBody mv msgs)) ∧
    (mv.truthy = false →
      proxyGroqChat (some (.obj [("model", mv), ("messages", .arr msgs)])) =
        .respond 400 (errPayload "Invalid payload. Expected \x7b model, messages[] \x7d")) := by
  constructor <;> intro h <;>
    simp [proxyGroqChat, JVal.field, List.lookup, h, JVal.isArray]

/-- Witness for C10: the number `5` as `model` (truthy, not a string) is
forwarded upstream; the empty string as `model` (present but falsy) is
rejected with HTTP 400. -/
theorem chat_validation_model_truthiness_witness :
    proxyGroqChat (some (.obj [("model", .num 5), ("messages", .arr [])])) =
      .upstream (chatCompletionsBody (.num 5) []) ∧
    proxyGroqChat (some (.obj [("model", .str ""), ("messages", .arr [])])) =
      .respond 400 (errPayload "Invalid payload. Expected \x7b model, messages[] \x7d") :=
  ⟨(chat_validation_model_truthiness (.num 5) []).1 (by decide),
   (chat_validation_model_truthiness (.str "") []).2 (by decide)⟩

/-- C9: whenever the upstream chat-completions body is not valid JSON,
the handler answers HTTP 502 with a preview of the body's first 180
characters — regardless of the upstream status code, so an upstream
status ≥ 400 is propagated only when the body parses as JSON. -/
theorem chat_bad_json_body_502 (r : UpstreamResp) (h : r.parsed = none) :
    handleGroqChatResponse r =
      jsonErrorRes 502 ("Bad JSON from Groq: " ++ r.raw.take 180) := by
  obtain ⟨st, raw, parsed⟩ := r
  cases h
  rfl

/-- Witness for C9: a status-500 upstream response with the non-JSON
body `oops` yields HTTP 502, not 500. -/
theorem chat_bad_json_body_502_witness :
    handleGroqChatResponse ⟨500, "oops", none⟩ =
      jsonErrorRes 502 ("Bad JSON from Groq: " ++ ("oops" : String).take 180) :=
  chat_bad_json_body_502 ⟨500, "oops", none⟩ rfl

/-- Counterexample to C3 as stated: an upstream response with status 500
whose body is not valid JSON is answered with HTTP 502, not with the
upstream status. -/
theorem chat_upstream_error_passthrough_counterexample :
    (handleGroqChatResponse ⟨500, "oops", none⟩).status ≠ 500 := by
  decide

/-- C3 (amended): for every upstream chat-completions response with
status ≥ 400 whose body parses as JSON, the handler's response status
equals the upstream status, and the message is `Groq error: ` followed
by the upstream error object's `message` field when truthy, else the
top-level `message` field when truthy, else the generic provider-error
text. -/
theorem chat_upstream_error_passthrough (st : Nat) (raw : String) (j : JVal)
    (h : 400 ≤ st) :
    handleGroqChatResponse ⟨st, raw, some j⟩ =
      jsonErrorRes st ("Groq error: " ++ upstreamErrText j) := by
  simp only [handleGroqChatResponse, h, ge_iff_le, if_true, upstreamErrText, JVal.orElse]
  split_ifs with h1 h2 <;> simp_all [JVal.toJsString]

/-- Witness for C3: upstream status 500 with body
`\x7b"error":\x7b"message":"boom"\x7d\x7d` is answered with status 500
and message `Groq error: boom`. -/
theorem chat_upstream_error_passthrough_witness :
    handleGroqChatResponse
        ⟨500, "ignored", some (.obj [("error", .obj [("message", .str "boom")])])⟩ =
      jsonErrorRes 500
        ("Groq error: " ++ upstreamErrText (.obj [("error", .obj [("message", .str "boom")])])) :=
  chat_upstream_error_passthrough 500 "ignored"
    (.obj [("error", .obj [("message", .str "boom")])]) (by decide)

/-- Counterexample to C4 as stated: a non-2xx upstream status below 400
(here 302) with a JSON body carrying model entries is *not* answered
with the fallback list — the code only falls back for status ≥ 400. -/
theorem models_endpoint_availability_counterexample :
    listModelsResponse
        (.response 302 "" (some (.obj [("data", .arr [.obj [("id", .str "mymodel")]])]))) =
      ⟨200, .obj [("models", .arr [.obj [("name", .str "mymodel")]])]⟩ ∧
    (⟨200, .obj [("models", .arr [.obj [("name", .str "mymodel")]])]⟩ : HttpJson) ≠
      fallbackModelsRes := by
  constructor
  · decide
  · decide

/-- C4 (amended): `GET /api/models` never returns an error status — every
outcome is answered with HTTP 200 — and on upstream transport error, on
any upstream status ≥ 400, on a non-JSON upstream body, and when
filtering leaves no surviving entries, the response is exactly
`\x7bmodels: GROQ_MODELS_FALLBACK\x7d`, identical across repeated
calls. -/
theorem models_endpoint_availability :
    (∀ o, (listModelsResponse o).status = 200) ∧
    (∀ e, listModelsResponse (.transportError e) = fallbackModelsRes) ∧
    (∀ st raw p, 400 ≤ st → listModelsResponse (.response st raw p) = fallbackModelsRes) ∧
    (∀ st raw, listModelsResponse (.response st raw none) = fallbackModelsRes) ∧
    (∀ st raw j, chatModelsOf (rawModelListOf j) = [] →
      listModelsResponse (.response st raw (some j)) = fallbackModelsRes) := by
  refine ⟨fun o => ?_, fun e => rfl, fun st raw p h => ?_, fun st raw => ?_, fun st raw j h => ?_⟩
  · cases o with
    | transportError e => rfl
    | response st raw p =>
      simp only [listModelsResponse]
      by_cases h : st ≥ 400
      · rw [if_pos h]; rfl
      · rw [if_neg h]
        cases p with
        | none => rfl
        | some j => rfl
  · simp only [listModelsResponse]
    rw [if_pos h]
  · simp only [listModelsResponse]
    by_cases h : st ≥ 400
    · rw [if_pos h]
    · rw [if_neg h]
  · simp only [listModelsResponse]
    by_cases h4 : st ≥ 400
    · rw [if_pos h4]
    · rw [if_neg h4]
      simp only [h, if_pos rfl]
      rfl

/-- Witness for C4: a status-500 upstream response falls back, and a
successful listing in which every entry is filtered out (a lone
`whisper` model) falls back as well. -/
theorem models_endpoint_availability_witness :
    listModelsResponse (.response 500 "" none) = fallbackModelsRes ∧
    listModelsResponse
        (.response 200 "" (some (.obj [("data", .arr [.obj [("id", .str "whisper-large-v3")]])]))) =
      fallbackModelsRes :=
  ⟨models_endpoint_availability.2.2.1 500 "" none (by decide),
   models_endpoint_availability.2.2.2.2 200 ""
     (.obj [("data", .arr [.obj [("id", .str "whisper-large-v3")]])]) (by decide)⟩

/-- Counterexample to C8 as stated: an entry whose identifier is the
empty string has a string identifier containing no blocklist fragment,
so per the claim it survives mapped to `\x7bname: ""\x7d`; the code
removes it (`if (!id) return false`). -/
theorem model_filter_blocklist_counterexample :
    chatModelsOf [.obj [("id", .str "")]] = [] ∧
    specClaimChatModels [.obj [("id", .str "")]] = [.obj [("name", .str "")]] := by
  constructor
  · decide
  · decide

/-- Fusing `filter` then `map` into one `filterMap`. -/
theorem filterThenMap_eq_filterMap {α β : Type} (p : α → Bool) (f : α → β)
    (g : α → Option β) (h : ∀ a, (if p a then some (f a) else none) = g a) :
    ∀ l : List α, (l.filter p).map f = l.filterMap g := by
  intro l
  induction l with
  | nil => rfl
  | cons a rest ih =>
    rw [List.filter_cons, List.filterMap_cons, ← h a]
    by_cases hp : p a
    · simp [hp, ih]
    · simp [hp, ih]

/-- C8 (amended): on a successful upstream model listing, every entry
whose identifier (a string) contains one of the substrings `whisper`,
`tts`, `embed`, `guard` (case-sensitive literal match) is removed,
entries without a string identifier or with an empty identifier are
removed, and every surviving entry is mapped to
`\x7bname: identifier\x7d`. -/
theorem model_filter_blocklist (rawModels : List JVal) :
    chatModelsOf rawModels = specAmendedChatModels rawModels := by
  apply filterThenMap_eq_filterMap
  intro m
  cases hid : m.field "id" with
  | str s =>
    by_cases hs : s = ""
    · simp [hid, hs]
    · by_cases hb : blockedId s <;> simp [hid, hs, hb]
  | null => simp [hid]
  | bool b => simp [hid]
  | num q => simp [hid]
  | arr xs => simp [hid]
  | obj fs => simp [hid]

/-- Counterexample to C7 as stated: a `KEY=new` line in the `.env` file
replaces the value of `KEY` even though `KEY` was already set (to `old`)
in the process environment before loading. -/
theorem env_loader_no_overwrite_counterexample :
    envGet (loadEnvFile "KEY=new".toList [("KEY".toList, "old".toList)]) "KEY".toList ≠
      some "old".toList := by
  decide

/-- The key just assigned by `envSet` maps to the new value. -/
theorem envGet_envSet (env : EnvMap) (k v : List Char) :
    envGet (envSet env k v) k = some v := by
  induction env with
  | nil => simp [envGet, envSet, List.lookup]
  | cons kv rest ih =>
    obtain ⟨k', v'⟩ := kv
    by_cases h : k' = k
    · simp [envGet, envSet, h, List.lookup]
    · have hne : (k == k') = false := by
        simp only [beq_eq_false_iff_ne, ne_eq]
        exact fun e => h e.symm
      simp only [envGet, envSet, if_neg h, List.lookup, hne]
      simpa [envGet] using ih

/-- A split on a character that does not occur returns the whole list as
the single part. -/
theorem splitOnChar_not_mem (sep : Char) :
    ∀ l : List Char, sep ∉ l → splitOnChar sep l = [l] := by
  intro l hl
  induction l with
  | nil => rfl
  | cons c cs ih =>
    have hc : ¬ c = sep := fun e => hl (e ▸ List.mem_cons_self c cs)
    have hcs : sep ∉ cs := fun h => hl (List.mem_cons_of_mem c h)
    simp only [splitOnChar, if_neg hc, ih hcs]

/-- C7 (amended): entries loaded from the `.env` file overwrite the
process environment unconditionally — for a file consisting of one
well-formed `KEY=VALUE` line, after loading, the parsed key maps to the
line's parsed value, whether or not the key was already set before. -/
theorem env_loader_overwrites (env : EnvMap) (contents k v : List Char)
    (hnl : '\n' ∉ contents)
    (hparse : parseEnvLine contents = some (k, v)) :
    envGet (loadEnvFile contents env) k = some v := by
  simp only [loadEnvFile, splitOnChar_not_mem '\n' contents hnl, List.foldl_cons,
    List.foldl_nil, hparse]
  exact envGet_envSet env k v

/-- The code's per-attachment block of `doGroqChat` agrees with the
block the specification promises, for attachments in the spec's data
model shape. -/
theorem imageBlockOf_toJVal (i : SpecImg) (hwf : i.wf) :
    imageBlockOf i.toJVal = i.block := by
  cases i with
  | legacy s =>
    by_cases hs : s = "" <;>
      simp [imageBlockOf, SpecImg.toJVal, SpecImg.block, JVal.typeofIsString,
        JVal.typeofIsObject, JVal.toJsString, hs]
  | structured d mo =>
    cases mo with
    | none =>
      by_cases hd : d = "" <;>
        simp [imageBlockOf, SpecImg.toJVal, SpecImg.block, JVal.typeofIsString,
          JVal.typeofIsObject, JVal.field, List.lookup, JVal.orElse, JVal.truthy,
          JVal.toJsString, hd]
    | some mm =>
      have hmm : mm ≠ "" := hwf
      by_cases hd : d = "" <;>
        simp [imageBlockOf, SpecImg.toJVal, SpecImg.block, JVal.typeofIsString,
          JVal.typeofIsObject, JVal.field, List.lookup, JVal.orElse, JVal.truthy,
          JVal.toJsString, hd, hmm]

/-- An attachment with non-empty data always yields an image block. -/
theorem SpecImg.block_isSome (i : SpecImg) (h : i.dataOf ≠ "") :
    ∃ b, i.block = some b := by
  cases i with
  | legacy s =>
    exact ⟨.obj [("type", .str "image_url"),
      ("image_url", .obj [("url", .str ("data:image/png;base64," ++ s))])],
      by simp only [SpecImg.dataOf] at h; simp only [SpecImg.block, if_neg h]⟩
  | structured d mo =>
    exact ⟨.obj [("type", .str "image_url"),
      ("image_url", .obj [("url", .str ("data:" ++ mo.getD "image/png" ++ ";base64," ++ d))])],
      by simp only [SpecImg.dataOf] at h; simp only [SpecImg.block, if_neg h]⟩

/-- Shape of the reshaped message for a message with at least one
attachment (in the spec's data-model shape): the block list when it is
non-empty, else the fallback to the original text. -/
theorem reshapeMessage_spec_shape (role : JVal) (c : String) (i0 : SpecImg)
    (rest : List SpecImg) (hwf : ∀ i ∈ i0 :: rest, i.wf) :
    reshapeMessage (mkSpecMessage role c (i0 :: rest)) =
      if (if c = "" then ([] : List JVal) else [textBlock c]) ++
          (i0 :: rest).filterMap SpecImg.block = []
      then .obj [("role", role), ("content", .str c)]
      else .obj [("role", role), ("content", .arr
        ((if c = "" then [] else [textBlock c]) ++
          (i0 :: rest).filterMap SpecImg.block))] := by
  have him : (mkSpecMessage role c (i0 :: rest)).field "images" =
      .arr (SpecImg.toJVal i0 :: rest.map SpecImg.toJVal) := by
    simp [mkSpecMessage, JVal.field, List.lookup]
  have hro : (mkSpecMessage role c (i0 :: rest)).field "role" = role := by
    simp [mkSpecMessage, JVal.field, List.lookup]
  have hco : (mkSpecMessage role c (i0 :: rest)).field "content" = .str c := by
    simp [mkSpecMessage, JVal.field, List.lookup]
  have hfm : (SpecImg.toJVal i0 :: rest.map SpecImg.toJVal).filterMap imageBlockOf =
      (i0 :: rest).filterMap SpecImg.block := by
    have hmap : SpecImg.toJVal i0 :: rest.map SpecImg.toJVal =
        (i0 :: rest).map SpecImg.toJVal := rfl
    rw [hmap, List.filterMap_map]
    exact List.filterMap_congr fun i hi => imageBlockOf_toJVal i (hwf i hi)
  have htext : (if (JVal.str c).truthy then
        [JVal.obj [("type", .str "text"), ("text", .str (JVal.str c).toJsString)]]
      else []) = (if c = "" then [] else [textBlock c]) := by
    by_cases hc : c = "" <;> simp [JVal.truthy, JVal.toJsString, textBlock, hc]
  have horelse : JVal.orElse (.str c) (.str "") = .str c := by
    by_cases hc : c = "" <;> simp [JVal.orElse, JVal.truthy, hc]
  simp only [reshapeMessage, him, hro, hco, htext, horelse, hfm]

/-- C1: for every chat message carrying at least one image attachment
with non-empty data, the reshaped message's content is a non-empty
sequence consisting of a text block (taken from the message's content)
iff the original text content was non-empty, followed by one image block
per attachment with non-empty data, in original attachment order, each
with URL `data:<mime>;base64,<data>`, mime defaulting to `image/png`
when unspecified; attachments with empty data are skipped; a message
with attachments but no resulting blocks falls back to
`\x7brole, content\x7d` with the original (possibly empty) text; a
message without attachments passes through unchanged as
`\x7brole, content\x7d`. -/
theorem reshape_message_multimodal (role : JVal) (c : String) (imgs : List SpecImg)
    (hwf : ∀ i ∈ imgs, i.wf) :
    ((∃ i ∈ imgs, i.dataOf ≠ "") →
      reshapeMessage (mkSpecMessage role c imgs) =
        .obj [("role", role), ("content", .arr
          ((if c = "" then [] else [textBlock c]) ++ imgs.filterMap SpecImg.block))] ∧
      (if c = "" then ([] : List JVal) else [textBlock c]) ++
        imgs.filterMap SpecImg.block ≠ []) ∧
    (imgs ≠ [] →
      (if c = "" then ([] : List JVal) else [textBlock c]) ++
        imgs.filterMap SpecImg.block = [] →
      reshapeMessage (mkSpecMessage role c imgs) =
        .obj [("role", role), ("content", .str c)]) ∧
    (imgs = [] →
      reshapeMessage (mkSpecMessage role c imgs) =
        .obj [("role", role), ("content", .str c)]) ∧
    (reshapeMessage (.obj [("role", role), ("content", .str c)]) =
      .obj [("role", role), ("content", .str c)]) := by
  refine ⟨fun ⟨i, hi, hdata⟩ => ?_, fun hne hempty => ?_, fun he => ?_, ?_⟩
  · obtain ⟨i0, rest, he⟩ : ∃ i0 rest, imgs = i0 :: rest := by
      cases imgs with
      | nil => exact absurd hi (List.not_mem_nil i)
      | cons a l => exact ⟨a, l, rfl⟩
    subst he
    obtain ⟨b, hb⟩ := SpecImg.block_isSome i hdata
    have hbm : b ∈ (i0 :: rest).filterMap SpecImg.block :=
      List.mem_filterMap.2 ⟨i, hi, hb⟩
    have hnonempty : (if c = "" then ([] : List JVal) else [textBlock c]) ++
        (i0 :: rest).filterMap SpecImg.block ≠ [] := by
      intro hcontra
      rw [List.append_eq_nil] at hcontra
      rw [hcontra.2] at hbm
      exact List.not_mem_nil b hbm
    rw [reshapeMessage_spec_shape role c i0 rest hwf, if_neg hnonempty]
    exact ⟨rfl, hnonempty⟩
  · obtain ⟨i0, rest, he⟩ : ∃ i0 rest, imgs = i0 :: rest := by
      cases imgs with
      | nil => exact absurd rfl hne
      | cons a l => exact ⟨a, l, rfl⟩
    subst he
    rw [reshapeMessage_spec_shape role c i0 rest hwf, if_pos hempty]
  · subst he
    simp [reshapeMessage, mkSpecMessage, JVal.field, List.lookup]
  · simp [reshapeMessage, JVal.field, List.lookup]

/-- Witness for C1: a message with text `hi` and one legacy base64
attachment `QUJD` reshapes to a text block followed by one image
block. -/
theorem reshape_message_multimodal_witness :
    reshapeMessage (mkSpecMessage (.str "user") "hi" [SpecImg.legacy "QUJD"]) =
      .obj [("role", .str "user"), ("content", .arr
        ((if ("hi" : String) = "" then [] else [textBlock "hi"]) ++
          [SpecImg.legacy "QUJD"].filterMap SpecImg.block))] ∧
    (if ("hi" : String) = "" then ([] : List JVal) else [textBlock "hi"]) ++
      [SpecImg.legacy "QUJD"].filterMap SpecImg.block ≠ [] :=
  (reshape_message_multimodal (.str "user") "hi" [SpecImg.legacy "QUJD"]
      (by intro i hi; simp only [List.mem_singleton] at hi; subst hi; trivial)).1
    ⟨SpecImg.legacy "QUJD", by simp, by decide⟩

/-- Byte counts add over chunk concatenation. -/
theorem chunkBytes_append (a b : String) :
    chunkBytes (a ++ b) = chunkBytes a + chunkBytes b := by
  simp [chunkBytes, String.toList, String.data_append]

/-- The invariant maintained by the `readBody` `data` handler: before
the limit is exceeded, `body` accounts for exactly `bytes` bytes (at
most the limit) and nothing has been emitted; afterwards, `body` has
stopped growing at or below the limit, `bytes` has passed it, exactly
one response — the 413 — has been written, the connection has been
destroyed, and the success callback has not fired. -/
def RBInv (limit : Nat) (s : RBState) (outs : List RBOut) : Prop :=
  match s.done with
  | true =>
    chunkBytes s.body ≤ limit ∧ limit < s.bytes ∧
    outs.filter isResponseOut = [.response 413 (errPayload (tooLargeMsg limit))] ∧
    (∀ b, RBOut.deliver b ∉ outs) ∧ RBOut.destroyConn ∈ outs
  | false =>
    chunkBytes s.body = s.bytes ∧ s.bytes ≤ limit ∧ outs = []

/-- One `data` event preserves the invariant and adds the chunk's bytes
to the counter. -/
theorem rbData_inv (limit : Nat) (s : RBState) (outs : List RBOut) (c : String)
    (h : RBInv limit s outs) :
    RBInv limit (rbData limit s c).1 (outs ++ (rbData limit s c).2) ∧
    (rbData limit s c).1.bytes = s.bytes + chunkBytes c := by
  cases hdone : s.done with
  | false =>
    simp only [RBInv, hdone] at h
    obtain ⟨hbody, hle, houts⟩ := h
    subst houts
    by_cases hover : limit < s.bytes + chunkBytes c
    · have hred : rbData limit s c =
          ({ body := s.body, done := true, bytes := s.bytes + chunkBytes c },
           [.response 413 (errPayload (tooLargeMsg limit)), .destroyConn]) := by
        simp [rbData, hover, hdone]
      rw [hred]
      refine ⟨?_, rfl⟩
      simp only [RBInv, List.nil_append]
      refine ⟨hbody ▸ hle, hover, by simp [isResponseOut], by simp, by simp⟩
    · have hred : rbData limit s c =
          ({ body := s.body ++ c, done := false, bytes := s.bytes + chunkBytes c }, []) := by
        simp [rbData, hover, hdone]
      rw [hred]
      refine ⟨?_, rfl⟩
      simp only [RBInv, List.append_nil]
      exact ⟨by rw [chunkBytes_append, hbody], Nat.le_of_not_lt hover, trivial⟩
  | true =>
    simp only [RBInv, hdone] at h
    obtain ⟨hbody, hlt, hresp, hdel, hdest⟩ := h
    have hover : limit < s.bytes + chunkBytes c :=
      Nat.lt_of_lt_of_le hlt (Nat.le_add_right _ _)
    have hred : rbData limit s c =
        ({ body := s.body, done := true, bytes := s.bytes + chunkBytes c }, []) := by
      simp [rbData, hover, hdone]
    rw [hred]
    refine ⟨?_, rfl⟩
    simp only [RBInv, List.append_nil]
    exact ⟨hbody, hover, hresp, hdel, hdest⟩

/-- Folding any chunk sequence preserves the invariant and counts every
byte. -/
theorem rbFold_inv (limit : Nat) :
    ∀ (chunks : List String) (s : RBState) (outs : List RBOut),
    RBInv limit s outs →
    RBInv limit (rbFold limit (s, outs) chunks).1 (rbFold limit (s, outs) chunks).2 ∧
    (rbFold limit (s, outs) chunks).1.bytes = s.bytes + (chunks.map chunkBytes).sum := by
  intro chunks
  induction chunks with
  | nil => intro s outs h; exact ⟨h, by simp [rbFold]⟩
  | cons c rest ih =>
    intro s outs h
    have hstep := rbData_inv limit s outs c h
    have hrec := ih (rbData limit s c).1 (outs ++ (rbData limit s c).2) hstep.1
    have hfold : rbFold limit (s, outs) (c :: rest) =
        rbFold limit ((rbData limit s c).1, outs ++ (rbData limit s c).2) rest := rfl
    rw [hfold]
    refine ⟨hrec.1, ?_⟩
    rw [hrec.2, hstep.2]
    simp [Nat.add_assoc]

/-- C6: for every request body whose accumulated bytes exceed the
configured ceiling, exactly one HTTP response is produced over the whole
body-reading interaction and it is the 413 — no duplicate error writes
and no later success callback — the connection is destroyed, and body
accumulation stops at or below the ceiling. -/
theorem readBody_oversize_single_response (limit : Nat) (chunks : List String)
    (h : limit < (chunks.map chunkBytes).sum) :
    (readBodyRun limit chunks).2.filter isResponseOut =
      [.response 413 (errPayload (tooLargeMsg limit))] ∧
    (∀ b, RBOut.deliver b ∉ (readBodyRun limit chunks).2) ∧
    RBOut.destroyConn ∈ (readBodyRun limit chunks).2 ∧
    chunkBytes (readBodyRun limit chunks).1.body ≤ limit := by
  have h0 : RBInv limit ⟨"", false, 0⟩ [] := by
    refine ⟨?_, Nat.zero_le _, rfl⟩
    simp [chunkBytes, String.toList]
  obtain ⟨hinv, hbytes⟩ := rbFold_inv limit chunks ⟨"", false, 0⟩ [] h0
  have hdone : (rbFold limit (⟨"", false, 0⟩, []) chunks).1.done = true := by
    by_contra hnd
    have hnd' : (rbFold limit (⟨"", false, 0⟩, []) chunks).1.done = false :=
      Bool.eq_false_iff.2 hnd
    simp only [RBInv, hnd'] at hinv
    have hle := hinv.2.1
    rw [hbytes] at hle
    simp only [Nat.zero_add] at hle
    exact Nat.not_lt.2 hle h
  simp only [RBInv, hdone] at hinv
  obtain ⟨hbody, _hlt, hresp, hdel, hdest⟩ := hinv
  have hrun : readBodyRun limit chunks =
      ((rbFold limit (⟨"", false, 0⟩, []) chunks).1,
        (rbFold limit (⟨"", false, 0⟩, []) chunks).2) := by
    rw [readBodyRun]
    simp [rbEnd, hdone]
  rw [hrun]
  exact ⟨hresp, hdel, hdest, hbody⟩

/-- A character split never produces the empty list of parts. -/
theorem splitOnChar_ne_nil (sep : Char) : ∀ l, splitOnChar sep l ≠ []
  | [] => by simp [splitOnChar]
  | c :: cs => by
    by_cases hc : c = sep
    · simp [splitOnChar, hc]
    · simp only [splitOnChar, if_neg hc]
      cases hs : splitOnChar sep cs with
      | nil => simp
      | cons s ss => simp

/-- Splitting distributes over an explicit separator occurrence. -/
theorem splitOnChar_append_sep (sep : Char) :
    ∀ a b, splitOnChar sep (a ++ sep :: b) = splitOnChar sep a ++ splitOnChar sep b := by
  intro a
  induction a with
  | nil => intro b; simp [splitOnChar]
  | cons c cs ih =>
    intro b
    by_cases hc : c = sep
    · simp [splitOnChar, hc, ih]
    · obtain ⟨s0, ss0, hcs⟩ := List.exists_cons_of_ne_nil (splitOnChar_ne_nil sep cs)
      simp [splitOnChar, hc, ih, hcs]

/-- No part produced by a split contains the separator. -/
theorem mem_splitOnChar_not_sep (sep : Char) :
    ∀ l s, s ∈ splitOnChar sep l → sep ∉ s := by
  intro l
  induction l with
  | nil =>
    intro s hs
    simp only [splitOnChar, List.mem_singleton] at hs
    subst hs
    exact List.not_mem_nil sep
  | cons c cs ih =>
    intro s hs
    by_cases hc : c = sep
    · rw [splitOnChar, if_pos hc] at hs
      rcases List.mem_cons.1 hs with h | h
      · subst h; exact List.not_mem_nil sep
      · exact ih s h
    · obtain ⟨s0, ss0, hcs⟩ := List.exists_cons_of_ne_nil (splitOnChar_ne_nil sep cs)
      rw [splitOnChar, if_neg hc, hcs] at hs
      rcases List.mem_cons.1 hs with h | h
      · subst h
        intro hmem
        rcases List.mem_cons.1 hmem with h' | h'
        · exact hc h'.symm
        · exact ih s0 (hcs ▸ List.mem_cons_self s0 ss0) h'
      · exact ih s (hcs ▸ List.mem_cons_of_mem s0 h)

/-- Normalisation only ever holds plain, separator-free components,
provided the input parts are separator-free. -/
theorem foldl_normStep_good :
    ∀ (segs : List (List Char)) (acc : List (List Char)),
    (∀ s ∈ acc, s ≠ [] ∧ '/' ∉ s) → (∀ s ∈ segs, '/' ∉ s) →
    ∀ s ∈ List.foldl normStep acc segs, s ≠ [] ∧ '/' ∉ s := by
  intro segs
  induction segs with
  | nil => intro acc hacc _ s hs; exact hacc s hs
  | cons c rest ih =>
    intro acc hacc hsegs s hs
    rw [List.foldl_cons] at hs
    refine ih (normStep acc c) ?_ (fun t ht => hsegs t (List.mem_cons_of_mem c ht)) s hs
    intro t ht
    rw [normStep] at ht
    split_ifs at ht with h1 h2
    · exact hacc t ht
    · exact hacc t (List.dropLast_subset acc ht)
    · rcases List.mem_append.1 ht with h | h
      · exact hacc t h
      · rw [List.mem_singleton] at h
        subst h
        exact ⟨fun he => h1 (Or.inl he), hsegs _ (List.mem_cons_self _ _)⟩

/-- Normalisation appends canonical components untouched. -/
theorem foldl_normStep_canonical :
    ∀ (rs : List (List Char)), canonicalSegs rs →
    ∀ acc, List.foldl normStep acc rs = acc ++ rs := by
  intro rs
  induction rs with
  | nil => intro _ acc; simp
  | cons x rest ih =>
    intro hc acc
    obtain ⟨hx1, _hx2, hx3, hx4⟩ := hc x (List.mem_cons_self x rest)
    have hrest : canonicalSegs rest := fun s hs => hc s (List.mem_cons_of_mem x hs)
    rw [List.foldl_cons, normStep, if_neg (by simp [hx1, hx3]), if_neg hx4,
      ih hrest (acc ++ [x])]
    simp

/-- Splitting the joined canonical segments recovers them (with the
leading empty part from the leading slash). -/
theorem splitSlash_joinAbs :
    ∀ (rs : List (List Char)), canonicalSegs rs → rs ≠ [] →
    splitSlash (joinAbs rs) = [] :: rs := by
  intro rs
  induction rs with
  | nil => intro _ h; exact absurd rfl h
  | cons x rest ih =>
    intro hc _
    have hx : '/' ∉ x := (hc x (List.mem_cons_self x rest)).2.1
    have hrest : canonicalSegs rest := fun s hs => hc s (List.mem_cons_of_mem x hs)
    cases rest with
    | nil =>
      show splitOnChar '/' (joinAbs [x]) = [[], x]
      have hj : joinAbs [x] = '/' :: x := by simp [joinAbs]
      rw [hj, splitOnChar, if_pos rfl, splitOnChar_not_mem '/' x hx]
    | cons y rest' =>
      have hne' : (y :: rest' : List (List Char)) ≠ [] := by simp
      have ihr := ih hrest hne'
      have hjr : joinAbs (y :: rest') = '/' :: (y ++ (y :: rest').tail.flatMap ('/' :: ·)) := by
        simp [joinAbs]
      have hj : joinAbs (x :: y :: rest') =
          '/' :: (x ++ '/' :: (y ++ rest'.flatMap ('/' :: ·))) := by
        simp [joinAbs]
      have htail : splitOnChar '/' (y ++ rest'.flatMap ('/' :: ·)) = y :: rest' := by
        have : splitSlash (joinAbs (y :: rest')) = [] :: y :: rest' := ihr
        rw [splitSlash, hjr] at this
        simp only [List.tail_cons] at this
        rw [splitOnChar, if_pos rfl] at this
        simpa using this
      show splitOnChar '/' (joinAbs (x :: y :: rest')) = [] :: x :: y :: rest'
      rw [hj, splitOnChar, if_pos rfl, splitOnChar_append_sep,
        splitOnChar_not_mem '/' x hx, htail]
      rfl

/-- Cancelling equal-length-free structure: if two separator-free
components are each followed by a separator, a prefix relation between
the concatenations forces the components to agree. -/
theorem append_sep_prefix_cancel :
    ∀ (x : List Char), '/' ∉ x → ∀ (y : List Char), '/' ∉ y → ∀ r r' : List Char,
    (x ++ '/' :: r) <+: (y ++ '/' :: r') → x = y ∧ r <+: r' := by
  intro x
  induction x with
  | nil =>
    intro _ y hy r r' hp
    cases y with
    | nil => simpa using hp
    | cons d y' =>
      exfalso
      rw [List.nil_append, List.cons_append, List.cons_prefix_cons] at hp
      refine hy ?_
      rw [hp.1]
      exact List.mem_cons_self d y'
  | cons c x' ih =>
    intro hx y hy r r' hp
    cases y with
    | nil =>
      exfalso
      rw [List.cons_append, List.nil_append, List.cons_prefix_cons] at hp
      refine hx ?_
      rw [← hp.1]
      exact List.mem_cons_self c x'
    | cons d y' =>
      rw [List.cons_append, List.cons_append, List.cons_prefix_cons] at hp
      obtain ⟨hcd, hrest⟩ := hp
      have hx' : '/' ∉ x' := fun h => hx (List.mem_cons_of_mem c h)
      have hy' : '/' ∉ y' := fun h => hy (List.mem_cons_of_mem d h)
      obtain ⟨he, hr⟩ := ih hx' y' hy' r r' hrest
      exact ⟨by rw [hcd, he], hr⟩

/-- If the joined root (with a trailing slash) is a string prefix of a
joined canonical path, the root's segments are a proper prefix of the
path's segments: the string check of `serveStatic` implies containment
in the root directory. -/
theorem joinAbs_prefix_strict :
    ∀ (a : List (List Char)), (∀ s ∈ a, s ≠ [] ∧ '/' ∉ s) → a ≠ [] →
    ∀ (b : List (List Char)), (∀ s ∈ b, '/' ∉ s) →
    (joinAbs a ++ ['/']) <+: joinAbs b → a <+: b ∧ a ≠ b := by
  intro a
  induction a with
  | nil => intro _ h; exact absurd rfl h
  | cons x a' ih =>
    intro ha _ b hb hp
    obtain ⟨hx1, hx2⟩ := ha x (List.mem_cons_self x a')
    cases b with
    | nil =>
      exfalso
      have hja : joinAbs (x :: a') = '/' :: (x ++ a'.flatMap (fun s => '/' :: s)) := by
        simp [joinAbs]
      have hjb : joinAbs ([] : List (List Char)) = ['/'] := by simp [joinAbs]
      rw [hja, hjb] at hp
      have hlen := hp.length_le
      simp at hlen
    | cons y b' =>
      have hy2 : '/' ∉ y := hb y (List.mem_cons_self y b')
      have hja : joinAbs (x :: a') ++ ['/'] =
          '/' :: (x ++ (a'.flatMap (fun s => '/' :: s) ++ ['/'])) := by
        simp [joinAbs]
      have hjb : joinAbs (y :: b') = '/' :: (y ++ b'.flatMap (fun s => '/' :: s)) := by
        simp [joinAbs]
      rw [hja, hjb, List.cons_prefix_cons] at hp
      obtain ⟨-, hp⟩ := hp
      cases a' with
      | nil =>
        simp only [List.flatMap_nil, List.nil_append] at hp
        cases b' with
        | nil =>
          exfalso
          simp only [List.flatMap_nil, List.append_nil] at hp
          exact hy2 (hp.subset (List.mem_append_right x (List.mem_singleton.2 rfl)))
        | cons z b'' =>
          have hfb : (z :: b'').flatMap (fun s => '/' :: s) =
              '/' :: (z ++ b''.flatMap (fun s => '/' :: s)) := by simp
          rw [hfb] at hp
          have hp' : x ++ '/' :: [] <+: y ++ '/' :: (z ++ b''.flatMap (fun s => '/' :: s)) := by
            simpa using hp
          obtain ⟨hxy, -⟩ := append_sep_prefix_cancel x hx2 y hy2 [] _ hp'
          subst hxy
          refine ⟨List.cons_prefix_cons.2 ⟨rfl, List.nil_prefix⟩, ?_⟩
          intro he
          simp at he
      | cons w a'' =>
        have hfa : (w :: a'').flatMap (fun s => '/' :: s) ++ ['/'] =
            '/' :: ((w ++ a''.flatMap (fun s => '/' :: s)) ++ ['/']) := by simp
        rw [hfa] at hp
        cases b' with
        | nil =>
          exfalso
          simp only [List.flatMap_nil, List.append_nil] at hp
          exact hy2 (hp.subset (List.mem_append_right x (List.mem_cons_self '/' _)))
        | cons z b'' =>
          have hfb : (z :: b'').flatMap (fun s => '/' :: s) =
              '/' :: (z ++ b''.flatMap (fun s => '/' :: s)) := by simp
          rw [hfb] at hp
          obtain ⟨hxy, hrest⟩ := append_sep_prefix_cancel x hx2 y hy2 _ _ hp
          have ha' : ∀ s ∈ w :: a'', s ≠ [] ∧ '/' ∉ s :=
            fun s hs => ha s (List.mem_cons_of_mem x hs)
          have hb' : ∀ s ∈ z :: b'', '/' ∉ s :=
            fun s hs => hb s (List.mem_cons_of_mem y hs)
          have hpre : joinAbs (w :: a'') ++ ['/'] <+: joinAbs (z :: b'') := by
            have h1 : joinAbs (w :: a'') ++ ['/'] =
                '/' :: ((w ++ a''.flatMap (fun s => '/' :: s)) ++ ['/']) := by
              simp [joinAbs]
            have h2 : joinAbs (z :: b'') = '/' :: (z ++ b''.flatMap (fun s => '/' :: s)) := by
              simp [joinAbs]
            rw [h1, h2, List.cons_prefix_cons]
            exact ⟨rfl, hrest⟩
          obtain ⟨hab, hne'⟩ := ih ha' (by simp) (z :: b'') hb' hpre
          subst hxy
          refine ⟨List.cons_prefix_cons.2 ⟨rfl, hab⟩, ?_⟩
          intro he
          injection he with h1 h2
          exact hne' h2

/-- C5: for every requested path whose canonical resolution against the
static root escapes the root directory, the static file server decides
`forbidden` (HTTP 403, never 200), and whenever it decides to read a
file, that file's canonical path lies strictly inside the root — it
never reads or serves a file outside the root. -/
theorem serveStatic_traversal_safe (rs : List (List Char)) (reqPath : String)
    (hcanon : canonicalSegs rs) (hne : rs ≠ []) :
    (¬ isStrictUnder rs (staticResolvedSegs rs reqPath) →
      serveStaticDecision (joinAbs rs) reqPath = .forbidden) ∧
    (∀ p, serveStaticDecision (joinAbs rs) reqPath = .read p →
      p = joinAbs (staticResolvedSegs rs reqPath) ∧
      isStrictUnder rs (staticResolvedSegs rs reqPath)) := by
  have hres1 : resolve1 (joinAbs rs) = joinAbs rs := by
    rw [resolve1, splitSlash_joinAbs rs hcanon hne]
    show joinAbs (List.foldl normStep [] ([] :: rs)) = joinAbs rs
    rw [List.foldl_cons]
    have hstep : normStep [] [] = [] := rfl
    rw [hstep, foldl_normStep_canonical rs hcanon []]
    simp
  have hresolved : resolveChars (joinAbs rs)
      ('.' :: (if reqPath = "/" then "/math-solver.html" else reqPath).toList) =
      joinAbs (staticResolvedSegs rs reqPath) := by
    rw [resolveChars, if_neg (by simp)]
    rfl
  have hdec : serveStaticDecision (joinAbs rs) reqPath =
      if (joinAbs rs ++ ['/']).isPrefixOf (joinAbs (staticResolvedSegs rs reqPath))
      then .read (joinAbs (staticResolvedSegs rs reqPath)) else .forbidden := by
    simp only [serveStaticDecision]
    rw [hres1, hresolved]
  have hgood_rs : ∀ s ∈ rs, s ≠ [] ∧ '/' ∉ s :=
    fun s hs => ⟨(hcanon s hs).1, (hcanon s hs).2.1⟩
  have hgood_b : ∀ s ∈ staticResolvedSegs rs reqPath, '/' ∉ s := by
    intro s hs
    rw [staticResolvedSegs, normSegs] at hs
    exact (foldl_normStep_good _ [] (by simp)
      (fun t ht => mem_splitOnChar_not_sep '/' _ t ht) s hs).2
  have hkey : (joinAbs rs ++ ['/']).isPrefixOf (joinAbs (staticResolvedSegs rs reqPath)) =
      true →
      rs <+: staticResolvedSegs rs reqPath ∧ rs ≠ staticResolvedSegs rs reqPath :=
    fun hc => joinAbs_prefix_strict rs hgood_rs hne _ hgood_b
      (List.isPrefixOf_iff_prefix.1 hc)
  rw [hdec]
  by_cases hc :
      (joinAbs rs ++ ['/']).isPrefixOf (joinAbs (staticResolvedSegs rs reqPath)) = true
  · rw [if_pos hc]
    refine ⟨fun hesc => absurd (hkey hc) hesc, fun p hp => ?_⟩
    injection hp with h
    exact ⟨h.symm, hkey hc⟩
  · rw [if_neg hc]
    exact ⟨fun _ => rfl, fun p hp => StaticDecision.noConfusion hp⟩

/-- Witness for C5: with static root `/app`, the request
`/../../etc/passwd` resolves outside the root and is rejected with
`forbidden` (HTTP 403). -/
theorem serveStatic_traversal_safe_witness :
    serveStaticDecision (joinAbs [['a', 'p', 'p']]) "/../../etc/passwd" =
      .forbidden :=
  (serveStatic_traversal_safe [['a', 'p', 'p']] "/../../etc/passwd"
    (by unfold canonicalSegs; decide) (by decide)).1
    (by unfold isStrictUnder; decide)

/-- Witness for C6: limit 2 with the single 3-byte chunk `abc` produces
exactly the one 413 response, a destroyed connection, no success
callback, and a body within the limit. -/
theorem readBody_oversize_single_response_witness :
    (readBodyRun 2 ["abc"]).2.filter isResponseOut =
      [.response 413 (errPayload (tooLargeMsg 2))] ∧
    (∀ b, RBOut.deliver b ∉ (readBodyRun 2 ["abc"]).2) ∧
    RBOut.destroyConn ∈ (readBodyRun 2 ["abc"]).2 ∧
    chunkBytes (readBodyRun 2 ["abc"]).1.body ≤ 2 :=
  readBody_oversize_single_response 2 ["abc"] (by decide)

/-- Witness for C7: loading `KEY=new` over an environment where `KEY` is
`old` leaves `KEY` bound to `new`. -/
theorem env_loader_overwrites_witness :
    envGet (loadEnvFile "KEY=new".toList [("KEY".toList, "old".toList)]) "KEY".toList =
      some "new".toList :=
  env_loader_overwrites [("KEY".toList, "old".toList)] "KEY=new".toList
    "KEY".toList "new".toList (by decide) (by decide)
